import Mathlib

/-!
# mu-guile message bindings (`libmuguile/mu-guile-msg.c`)

A shallow embedding of the Guile binding layer for mu messages, and the
properties of it that are checked against the specification.

Conventions of the embedding.

* A byte is a `Nat`; a `char *` is the list of bytes of the buffer it points
  to.  As in C, the string held by a buffer ends at its first `0` byte (or at
  the end of the list, where the terminator is implicit).
* A Scheme value is a term of `SCM`; a list is a chain of `cons` cells.
* The process state is a `World`: the wrappers handed out by `scm_gc_malloc`
  (a `MuMsgWrapper *` is an index into that list), the smob tag registered by
  `mu_guile_msg_init`, the calls of `mu_msg_unref` made so far and the text
  written to ports.
* A `MuMsg` is given by what the getters of the mu library return for it.
-/

namespace MuGuile

/-! ## Scheme values -/

/-- Scheme objects, as far as this file builds or inspects them.  A smob is a
cell whose first word is the type tag and whose second word is the data
pointer. -/
inductive SCM where
  | UNSPECIFIED
  | UNDEFINED
  | BOOL_T
  | BOOL_F
  | EOL
  | integer (n : Int)
  | string (bytes : List Nat)
  | symbol (name : String)
  | cons (car cdr : SCM)
  | smob (tag : Nat) (data : Nat)
  deriving DecidableEq

namespace SCM

/-- The Scheme list holding the given elements. -/
def ofList : List SCM → SCM
  | [] => EOL
  | x :: xs => cons x (ofList xs)

end SCM

/-- Guile's `scm_list_1`. -/
def scm_list_1 (a : SCM) : SCM := .cons a .EOL

/-- Guile's `scm_list_2`. -/
def scm_list_2 (a b : SCM) : SCM := .cons a (.cons b .EOL)

/-- Append of two Scheme lists: the cells of `a` followed by `b`. -/
def scm_append2 : SCM → SCM → SCM
  | .cons x xs, b => .cons x (scm_append2 xs b)
  | _, b => b

/-- Guile's `scm_append_x`, applied to a list of lists. -/
def scm_append_x : SCM → SCM
  | .cons a .EOL => a
  | .cons a rest => scm_append2 a (scm_append_x rest)
  | _ => .EOL

/-- Guile's `scm_is_string`. -/
def scm_is_string : SCM → Bool
  | .string _ => true
  | _ => false

/-- Guile's `SCM_UNBNDP`: an optional argument that was not supplied. -/
def SCM_UNBNDP (x : SCM) : Bool := x == .UNDEFINED

/-- Guile's `scm_from_utf8_symbol` on a string literal. -/
def scm_from_utf8_symbol (name : String) : SCM := .symbol name

/-! ## C strings and UTF-8 -/

/-- The string held by a buffer: the bytes before its first `0` byte. -/
def c_str (buf : List Nat) : List Nat := buf.takeWhile (fun b => b != 0)

/-- Guile's `scm_from_utf8_string`: the Scheme string made from the bytes of the
C string it is handed.  The bytes are recorded as handed over. -/
def scm_from_utf8_string (s : List Nat) : SCM := .string (c_str s)

/-- Guile's `scm_to_utf8_string`: the bytes of a Scheme string. -/
def scm_to_utf8_string : SCM → List Nat
  | .string bytes => bytes
  | _ => []

/-- GLib's `g_strndup (str, n)`: at most `n` bytes of the string. -/
def g_strndup (str : List Nat) (n : Nat) : List Nat := (c_str str).take n

/-- A UTF-8 continuation byte within the given bounds. -/
def inRange (lo hi b : Nat) : Bool := decide (lo ≤ b) && decide (b ≤ hi)

/-- One step of the scan of GLib's `g_utf8_validate`: the number of bytes of
the character at the head of the buffer, by its lead byte, or `0` when the
buffer is at its terminator or no character can be read there.  The
characters accepted are the well-formed sequences of RFC 3629: no overlong
form, no surrogate, nothing above U+10FFFF. -/
def validate_char : List Nat → Nat
  | [] => 0
  | b :: rest =>
    if b = 0 then 0
    else if b < 0x80 then 1
    else if b < 0xc2 then 0
    else if b < 0xe0 then
      match rest with
      | c1 :: _ => if inRange 0x80 0xbf c1 then 2 else 0
      | [] => 0
    else if b < 0xf0 then
      match rest with
      | c1 :: c2 :: _ =>
        if inRange (if b = 0xe0 then 0xa0 else 0x80) (if b = 0xed then 0x9f else 0xbf) c1
            && inRange 0x80 0xbf c2
        then 3 else 0
      | _ => 0
    else if b < 0xf5 then
      match rest with
      | c1 :: c2 :: c3 :: _ =>
        if inRange (if b = 0xf0 then 0x90 else 0x80) (if b = 0xf4 then 0x8f else 0xbf) c1
            && inRange 0x80 0xbf c2 && inRange 0x80 0xbf c3
        then 4 else 0
      | _ => 0
    else 0

/-- The scan of GLib's `g_utf8_validate (str, -1, &end)`: the offset at which
it stops, which is the terminating `0` byte when the text is valid and the
start of the first invalid sequence otherwise. -/
def fast_validate : List Nat → Nat
  | [] => 0
  | b :: rest =>
    match validate_char (b :: rest), rest with
    | 1, rest1 => 1 + fast_validate rest1
    | 2, _ :: rest2 => 2 + fast_validate rest2
    | 3, _ :: _ :: rest3 => 3 + fast_validate rest3
    | 4, _ :: _ :: _ :: rest4 => 4 + fast_validate rest4
    | _, _ => 0

/-- The test `*p == 0`: the position is at the terminator of the string. -/
def at_terminator : List Nat → Bool
  | [] => true
  | b :: _ => b == 0

/-- GLib's `g_utf8_validate (str, -1, &end)`: the verdict and the offset
`end - str`.  The text is valid when the scan stopped at the terminator. -/
def g_utf8_validate (str : List Nat) : Bool × Nat :=
  let p := fast_validate str
  (at_terminator (str.drop p), p)

/-- One well-formed UTF-8 byte sequence (Unicode, table 3-7): the encoding of
one scalar value. -/
def WellFormedSeq : List Nat → Bool
  | [b] => decide (b < 0x80)
  | [b, c1] => inRange 0xc2 0xdf b && inRange 0x80 0xbf c1
  | [b, c1, c2] =>
    (b == 0xe0 && inRange 0xa0 0xbf c1 && inRange 0x80 0xbf c2)
    || (inRange 0xe1 0xec b && inRange 0x80 0xbf c1 && inRange 0x80 0xbf c2)
    || (b == 0xed && inRange 0x80 0x9f c1 && inRange 0x80 0xbf c2)
    || (inRange 0xee 0xef b && inRange 0x80 0xbf c1 && inRange 0x80 0xbf c2)
  | [b, c1, c2, c3] =>
    (b == 0xf0 && inRange 0x90 0xbf c1 && inRange 0x80 0xbf c2 && inRange 0x80 0xbf c3)
    || (inRange 0xf1 0xf3 b && inRange 0x80 0xbf c1 && inRange 0x80 0xbf c2
        && inRange 0x80 0xbf c3)
    || (b == 0xf4 && inRange 0x80 0x8f c1 && inRange 0x80 0xbf c2 && inRange 0x80 0xbf c3)
  | _ => false

/-- Valid UTF-8 text, said without reference to the validator: a run of
well-formed sequences, one after the other. -/
inductive ValidUtf8 : List Nat → Prop where
  | nil : ValidUtf8 []
  | seq (s rest : List Nat) : WellFormedSeq s = true → ValidUtf8 rest → ValidUtf8 (s ++ rest)

/-- The first invalid byte sequence of `bs` starts at offset `k`: what precedes
it is valid text, and no well-formed sequence starts at `k`. -/
def FirstInvalidAt (bs : List Nat) (k : Nat) : Prop :=
  k < bs.length ∧ ValidUtf8 (bs.take k) ∧
    ∀ s r, bs.drop k = s ++ r → WellFormedSeq s = false

/-! ## The mu library, as seen through its getters -/

/-- The field identifiers of `mu-msg-fields.h` that this file names. -/
inductive MuMsgFieldId where
  | BCC | CC | DATE | FROM | MAILDIR | MSGID | PATH | REFS | SIZE | SUBJECT | TAGS | TO
  deriving DecidableEq

/-- The priorities of `mu-msg-prio.h`; `NONE` stands for any other value of the
C enumeration. -/
inductive MuMsgPrio where
  | LOW | NORMAL | HIGH | NONE
  deriving DecidableEq

/-- The contact roles of `mu-msg-contact.h`. -/
inductive MuMsgContactType where
  | TO | FROM | CC | BCC
  deriving DecidableEq

/-- A contact: what `mu_msg_contact_type`, `mu_msg_contact_name` and
`mu_msg_contact_address` return for it (`none` is the NULL pointer). -/
structure MuMsgContact where
  type : MuMsgContactType
  name : Option (List Nat)
  address : Option (List Nat)
  deriving DecidableEq

/-- Modelled from the spec: the Flag Registry of `mu-msg-flags.h`, which is not
among the sources.  The flags are the eleven status flags, in the declaration
order the spec gives. -/
inductive MuMsgFlag where
  | NEW | PASSED | REPLIED | SEEN | TRASHED | DRAFT | FLAGGED | UNREAD
  | SIGNED | ENCRYPTED | HAS_ATTACH
  deriving DecidableEq

namespace MuMsgFlag

/-- Modelled from the spec: the position of a flag in the declaration order of
the Flag Registry. -/
def index : MuMsgFlag → Nat
  | NEW => 0 | PASSED => 1 | REPLIED => 2 | SEEN => 3 | TRASHED => 4 | DRAFT => 5
  | FLAGGED => 6 | UNREAD => 7 | SIGNED => 8 | ENCRYPTED => 9 | HAS_ATTACH => 10

/-- Modelled from the spec: the value of a flag in the bitmask vocabulary, one
bit per flag. -/
def bit (f : MuMsgFlag) : Nat := 1 <<< f.index

end MuMsgFlag

/-- Modelled from the spec: the flags of the Flag Registry in declaration
order, as `mu_msg_flags_foreach` visits them. -/
def ALL_FLAGS : List MuMsgFlag :=
  [.NEW, .PASSED, .REPLIED, .SEEN, .TRASHED, .DRAFT, .FLAGGED, .UNREAD,
   .SIGNED, .ENCRYPTED, .HAS_ATTACH]

/-- Modelled from the spec: `mu_msg_flag_name`, the symbolic name of a flag as
the Flag Registry lists it. -/
def mu_msg_flag_name : MuMsgFlag → String
  | .NEW => "new" | .PASSED => "passed" | .REPLIED => "replied" | .SEEN => "seen"
  | .TRASHED => "trashed" | .DRAFT => "draft" | .FLAGGED => "flagged"
  | .UNREAD => "unread" | .SIGNED => "signed" | .ENCRYPTED => "encrypted"
  | .HAS_ATTACH => "has-attachment"

/-- Modelled from the spec: `mu_msg_flags_foreach`, which calls `func` once for
every flag of the registry, in declaration order. -/
def mu_msg_flags_foreach {σ : Type} (func : MuMsgFlag → σ → σ) (user_data : σ) : σ :=
  ALL_FLAGS.foldl (fun d flag => func flag d) user_data

/-- A parsed message of the mu library (`MuMsg`), given by what its getters
return: `none` is the NULL pointer, the flags are the bitmask. -/
structure MuMsg where
  field_string : MuMsgFieldId → Option (List Nat)
  field_numeric : MuMsgFieldId → Int
  field_string_list : MuMsgFieldId → List (List Nat)
  prio : MuMsgPrio
  flags : Nat
  contacts : List MuMsgContact
  body_html : Option (List Nat)
  body_text : Option (List Nat)
  header : List Nat → Option (List Nat)
  path : Option (List Nat)

/-- The getter `mu_msg_get_field_string`. -/
def mu_msg_get_field_string (msg : MuMsg) (mfid : MuMsgFieldId) : Option (List Nat) :=
  msg.field_string mfid

/-- The getter `mu_msg_get_field_numeric`. -/
def mu_msg_get_field_numeric (msg : MuMsg) (mfid : MuMsgFieldId) : Int :=
  msg.field_numeric mfid

/-- The getter `mu_msg_get_field_string_list`. -/
def mu_msg_get_field_string_list (msg : MuMsg) (mfid : MuMsgFieldId) : List (List Nat) :=
  msg.field_string_list mfid

/-- Modelled from the spec: `mu_msg_contact_foreach`, which calls `func` for
the contacts of the message in the order the message stores them. -/
def mu_msg_contact_foreach {σ : Type} (msg : MuMsg) (func : MuMsgContact → σ → σ)
    (user_data : σ) : σ :=
  msg.contacts.foldl (fun d contact => func contact d) user_data

/-- A `GError` of the parser: its message. -/
structure GError where
  message : String
  deriving DecidableEq

/-! ## Wrappers and the process state -/

/-- The smob payload, `struct _MuMsgWrapper`. -/
structure MuMsgWrapper where
  _msg : MuMsg
  _unrefme : Bool

/-- The state the bindings act on. -/
structure World where
  /-- The static `MSG_TAG`, set by `mu_guile_msg_init`. -/
  MSG_TAG : Nat
  /-- The wrappers allocated by `scm_gc_malloc`; a pointer is an index. -/
  heap : List MuMsgWrapper
  /-- The messages passed to `mu_msg_unref`, oldest first. -/
  unrefs : List MuMsg
  /-- The text written by `scm_puts`, with its port, oldest first. -/
  output : List (SCM × List Nat)

/-- What a call comes to. -/
inductive Outcome (α : Type) where
  /-- The call returns. -/
  | ok (v : α)
  /-- The failure of `SCM_ASSERT`: `scm_wrong_type_arg (subr, pos, bad)`. -/
  | wrong_type_arg (subr : String) (pos : Nat) (bad : SCM)
  /-- The error raised by `mu_guile_g_error`. -/
  | mu_error (subr : String) (err : GError)
  /-- A read through a pointer that does not point to an object of the type it
  is read at: the data word of a value that is not a message read as a
  `MuMsgWrapper *`, or a NULL string. -/
  | bad_pointer (v : SCM)
  deriving DecidableEq

/-- The predicate `mu_guile_scm_is_msg`: a non-immediate whose first word is
`MSG_TAG`. -/
def mu_guile_scm_is_msg (w : World) (scm : SCM) : Bool :=
  match scm with
  | .smob tag _ => tag == w.MSG_TAG
  | _ => false

/-- The read `(MuMsgWrapper*) SCM_CDR (msg_smob)` followed by an access to the
wrapper.  Only the data word of a message smob points to a wrapper. -/
def SCM_CDR_wrapper (w : World) (msg_smob : SCM) : Option (Nat × MuMsgWrapper) :=
  match msg_smob with
  | .smob tag data =>
    if tag == w.MSG_TAG then (w.heap.get? data).map (fun wrap => (data, wrap)) else none
  | _ => none

/-- The wrapper a value wraps, if it is a message of this world. -/
def wrapperOf (w : World) (msg_smob : SCM) : Option MuMsgWrapper :=
  (SCM_CDR_wrapper w msg_smob).map Prod.snd

/-- Function `mu_guile_msg_to_scm`: allocate a wrapper for `msg` and return the
new smob. -/
def mu_guile_msg_to_scm (w : World) (msg : Option MuMsg) : World × SCM :=
  match msg with
  | none => (w, .UNDEFINED)
  | some m =>
    let msgwrap : MuMsgWrapper := { _msg := m, _unrefme := false }
    ({ w with heap := w.heap ++ [msgwrap] }, .smob w.MSG_TAG w.heap.length)

/-- Modelled from the spec: `mu_guile_g_error` of `mu-guile-common.c`, which is
not among the sources.  A parse failure is surfaced to the caller as an error
that carries the underlying cause; the call does not return. -/
def mu_guile_g_error (func_name : String) (err : GError) : Outcome SCM :=
  .mu_error func_name err

/-- Procedure `mu:msg:make-from-file`.  The parser `mu_msg_new_from_file` is a
collaborator: it gives the message (or NULL) and the error it set (or none). -/
def msg_make_from_file (mu_msg_new_from_file : List Nat → Option MuMsg × Option GError)
    (w : World) (PATH : SCM) : World × Outcome SCM :=
  if !scm_is_string PATH then (w, .wrong_type_arg "mu:msg:make-from-file" 1 PATH)
  else
    match mu_msg_new_from_file (scm_to_utf8_string PATH) with
    | (_, some err) => (w, mu_guile_g_error "mu:msg:make-from-file" err)
    | (msg, none) =>
      match msg with
      | some m => let r := mu_guile_msg_to_scm w (some m); (r.1, .ok r.2)
      | none => (w, .ok .UNDEFINED)

/-! ## Accessors -/

/-- Helper `msg_str_field`: the string field `mfid` of the wrapped message,
cut at the first invalid UTF-8 sequence. -/
def msg_str_field (w : World) (msg_smob : SCM) (mfid : MuMsgFieldId) : Outcome SCM :=
  match wrapperOf w msg_smob with
  | none => .bad_pointer msg_smob
  | some msgwrap =>
    match mu_msg_get_field_string msgwrap._msg mfid with
    | some val =>
      let r := g_utf8_validate val
      if !r.1 then
        let part := g_strndup val r.2
        .ok (scm_from_utf8_string part)
      else .ok (scm_from_utf8_string val)
    | none => .ok .UNSPECIFIED

/-- Helper `msg_num_field`: the numeric field `mfid` (a `gint64`). -/
def msg_num_field (w : World) (msg_smob : SCM) (mfid : MuMsgFieldId) : Option Int :=
  match wrapperOf w msg_smob with
  | none => none
  | some msgwrap => some (mu_msg_get_field_numeric msgwrap._msg mfid)

/-- Guile's `scm_from_unsigned_integer` on a `gint64`: the value is converted
to the unsigned 64-bit type first. -/
def scm_from_unsigned_integer (x : Int) : SCM := .integer (x % 2 ^ 64)

/-- Procedure `mu:msg:date`. -/
def msg_date (w : World) (MSG : SCM) : Outcome SCM :=
  if !mu_guile_scm_is_msg w MSG then .wrong_type_arg "mu:msg:date" 1 MSG
  else
    match msg_num_field w MSG .DATE with
    | some n => .ok (scm_from_unsigned_integer n)
    | none => .bad_pointer MSG

/-- Procedure `mu:msg:size`. -/
def msg_size (w : World) (MSG : SCM) : Outcome SCM :=
  if !mu_guile_scm_is_msg w MSG then .wrong_type_arg "mu:msg:size" 1 MSG
  else
    match msg_num_field w MSG .SIZE with
    | some n => .ok (scm_from_unsigned_integer n)
    | none => .bad_pointer MSG

/-- Procedure `mu:msg:priority`. -/
def msg_prio (w : World) (MSG : SCM) : Outcome SCM :=
  if !mu_guile_scm_is_msg w MSG then .wrong_type_arg "mu:msg:priority" 1 MSG
  else
    match wrapperOf w MSG with
    | none => .bad_pointer MSG
    | some msgwrap =>
      match msgwrap._msg.prio with
      | .LOW => .ok (scm_from_utf8_symbol "low")
      | .NORMAL => .ok (scm_from_utf8_symbol "normal")
      | .HIGH => .ok (scm_from_utf8_symbol "high")
      | .NONE => .ok .UNDEFINED

/-- The accumulator `struct _FlagData`. -/
structure FlagData where
  flags : Nat
  lst : SCM

/-- Callback `check_flag`: append the name of `flag` when the mask has it. -/
def check_flag (flag : MuMsgFlag) (fdata : FlagData) : FlagData :=
  if fdata.flags &&& flag.bit ≠ 0 then
    let item := scm_list_1 (scm_from_utf8_symbol (mu_msg_flag_name flag))
    { fdata with lst := scm_append_x (scm_list_2 fdata.lst item) }
  else fdata

/-- Procedure `mu:msg:flags`. -/
def msg_flags (w : World) (MSG : SCM) : Outcome SCM :=
  if !mu_guile_scm_is_msg w MSG then .wrong_type_arg "mu:msg:flags" 1 MSG
  else
    match wrapperOf w MSG with
    | none => .bad_pointer MSG
    | some msgwrap =>
      let fdata : FlagData := { flags := msgwrap._msg.flags, lst := .EOL }
      .ok (mu_msg_flags_foreach check_flag fdata).lst

/-- Procedure `mu:msg:subject`. -/
def msg_subject (w : World) (MSG : SCM) : Outcome SCM :=
  if !mu_guile_scm_is_msg w MSG then .wrong_type_arg "mu:msg:subject" 1 MSG
  else msg_str_field w MSG .SUBJECT

/-- Procedure `mu:msg:from`. -/
def msg_from (w : World) (MSG : SCM) : Outcome SCM :=
  if !mu_guile_scm_is_msg w MSG then .wrong_type_arg "mu:msg:from" 1 MSG
  else msg_str_field w MSG .FROM

/-- The accumulator `struct _EachContactData`. -/
structure EachContactData where
  lst : SCM
  ctype : MuMsgContactType

/-- Callback `contacts_to_list`: append the (name, address) pair of a contact
of the wanted role. -/
def contacts_to_list (contact : MuMsgContact) (ecdata : EachContactData) : EachContactData :=
  if contact.type = ecdata.ctype then
    let addr := contact.address
    let name := contact.name
    let item := scm_list_1
      (scm_list_2
        (match name with | some n => scm_from_utf8_string n | none => .UNSPECIFIED)
        (match addr with | some a => scm_from_utf8_string a | none => .UNSPECIFIED))
    { ecdata with lst := scm_append_x (scm_list_2 ecdata.lst item) }
  else ecdata

/-- Helper `contact_list_field`: the contacts of the role that goes with
`mfid`. -/
def contact_list_field (w : World) (msg_smob : SCM) (mfid : MuMsgFieldId) : Outcome SCM :=
  let ctype : Option MuMsgContactType :=
    match mfid with
    | .TO => some .TO
    | .CC => some .CC
    | .BCC => some .BCC
    | _ => none
  match ctype with
  | none => .ok .UNDEFINED
  | some ct =>
    match wrapperOf w msg_smob with
    | none => .bad_pointer msg_smob
    | some msgwrap =>
      let ecdata : EachContactData := { lst := .EOL, ctype := ct }
      .ok (mu_msg_contact_foreach msgwrap._msg contacts_to_list ecdata).lst

/-- Procedure `mu:msg:to`. -/
def msg_to (w : World) (MSG : SCM) : Outcome SCM :=
  if !mu_guile_scm_is_msg w MSG then .wrong_type_arg "mu:msg:to" 1 MSG
  else contact_list_field w MSG .TO

/-- Procedure `mu:msg:cc`. -/
def msg_cc (w : World) (MSG : SCM) : Outcome SCM :=
  if !mu_guile_scm_is_msg w MSG then .wrong_type_arg "mu:msg:cc" 1 MSG
  else contact_list_field w MSG .CC

/-- Procedure `mu:msg:bcc`. -/
def msg_bcc (w : World) (MSG : SCM) : Outcome SCM :=
  if !mu_guile_scm_is_msg w MSG then .wrong_type_arg "mu:msg:bcc" 1 MSG
  else contact_list_field w MSG .BCC

/-- Procedure `mu:msg:path`. -/
def msg_path (w : World) (MSG : SCM) : Outcome SCM :=
  if !mu_guile_scm_is_msg w MSG then .wrong_type_arg "mu:msg:path" 1 MSG
  else msg_str_field w MSG .PATH

/-- Procedure `mu:msg:maildir`. -/
def msg_maildir (w : World) (MSG : SCM) : Outcome SCM :=
  if !mu_guile_scm_is_msg w MSG then .wrong_type_arg "mu:msg:maildir" 1 MSG
  else msg_str_field w MSG .MAILDIR

/-- Procedure `mu:msg:message-id`.  Its body is the call of `msg_str_field`
alone. -/
def msg_msgid (w : World) (MSG : SCM) : Outcome SCM :=
  msg_str_field w MSG .MSGID

/-- Procedure `mu:msg:body`. -/
def msg_body (w : World) (MSG : SCM) (HTML : SCM) : Outcome SCM :=
  if !mu_guile_scm_is_msg w MSG then .wrong_type_arg "mu:msg:body" 1 MSG
  else
    match wrapperOf w MSG with
    | none => .bad_pointer MSG
    | some msgwrap =>
      let html : Bool := if SCM_UNBNDP HTML then false else HTML == .BOOL_T
      let val := if html then msgwrap._msg.body_html else msgwrap._msg.body_text
      match val with
      | some v => .ok (scm_from_utf8_string v)
      | none => .ok .UNSPECIFIED

/-- Procedure `mu:msg:header`. -/
def msg_header (w : World) (MSG : SCM) (HEADER : SCM) : Outcome SCM :=
  if !mu_guile_scm_is_msg w MSG then .wrong_type_arg "mu:msg:header" 1 MSG
  else if !scm_is_string HEADER then .wrong_type_arg "mu:msg:header" 2 HEADER
  else
    match wrapperOf w MSG with
    | none => .bad_pointer MSG
    | some msgwrap =>
      let header := scm_to_utf8_string HEADER
      match msgwrap._msg.header header with
      | some v => .ok (scm_from_utf8_string v)
      | none => .ok .UNDEFINED

/-- The loop of `msg_string_list_field`: one string appended per element. -/
def string_list_loop : List (List Nat) → SCM → SCM
  | [], scmlst => scmlst
  | data :: next, scmlst =>
    let item := scm_list_1 (scm_from_utf8_string data)
    string_list_loop next (scm_append_x (scm_list_2 scmlst item))

/-- Helper `msg_string_list_field`: the string-list field `mfid`. -/
def msg_string_list_field (w : World) (msg_smob : SCM) (mfid : MuMsgFieldId) : Outcome SCM :=
  match wrapperOf w msg_smob with
  | none => .bad_pointer msg_smob
  | some msgwrap =>
    let lst := mu_msg_get_field_string_list msgwrap._msg mfid
    .ok (string_list_loop lst .EOL)

/-- Procedure `mu:msg:tags`. -/
def msg_tags (w : World) (MSG : SCM) : Outcome SCM :=
  if !mu_guile_scm_is_msg w MSG then .wrong_type_arg "mu:msg:tags" 1 MSG
  else msg_string_list_field w MSG .TAGS

/-- Procedure `mu:msg:references`. -/
def msg_refs (w : World) (MSG : SCM) : Outcome SCM :=
  if !mu_guile_scm_is_msg w MSG then .wrong_type_arg "mu:msg:references" 1 MSG
  else msg_string_list_field w MSG .REFS

/-! ## The smob hooks -/

/-- Hook `msg_mark`, run by the collector on every message it reaches. -/
def msg_mark (w : World) (msg_smob : SCM) : World × Outcome SCM :=
  match SCM_CDR_wrapper w msg_smob with
  | none => (w, .bad_pointer msg_smob)
  | some (p, msgwrap) =>
    ({ w with heap := w.heap.set p { msgwrap with _unrefme := true } }, .ok .UNSPECIFIED)

/-- The value of `sizeof (MuMsgWrapper)`: a pointer and a `gboolean`, padded. -/
def sizeof_MuMsgWrapper : Nat := 16

/-- Hook `msg_free`, run by the collector when it releases a message. -/
def msg_free (w : World) (msg_smob : SCM) : World × Outcome Nat :=
  match wrapperOf w msg_smob with
  | none => (w, .bad_pointer msg_smob)
  | some msgwrap =>
    if msgwrap._unrefme then
      ({ w with unrefs := w.unrefs ++ [msgwrap._msg] }, .ok sizeof_MuMsgWrapper)
    else (w, .ok sizeof_MuMsgWrapper)

/-- Guile's `scm_puts`: write the text to the port. -/
def scm_puts (w : World) (text : List Nat) (port : SCM) : World :=
  { w with output := w.output ++ [(port, c_str text)] }

/-- Hook `msg_print`. -/
def msg_print (w : World) (msg_smob : SCM) (port : SCM) : World × Outcome Nat :=
  -- "#<msg "
  let w1 := scm_puts w [0x23, 0x3c, 0x6d, 0x73, 0x67, 0x20] port
  if msg_smob = .BOOL_F then
    -- "#f", then ">"
    (scm_puts (scm_puts w1 [0x23, 0x66] port) [0x3e] port, .ok 1)
  else
    match wrapperOf w1 msg_smob with
    | none => (w1, .bad_pointer msg_smob)
    | some msgwrap =>
      match msgwrap._msg.path with
      | none => (w1, .bad_pointer msg_smob)
      | some path => (scm_puts (scm_puts w1 path port) [0x3e] port, .ok 1)

/-! ## The operations that can run on a wrapper -/

/-- The operations of the file that take a message: the sixteen exported
accessors and the two hooks that run between wrap and release. -/
inductive Op where
  | date | size | priority | flags | subject | sender | to | cc | bcc | path | maildir
  | message_id | body (html : SCM) | header (name : SCM) | tags | references
  | mark | print (port : SCM)

/-- An operation is one of the exported accessors. -/
def Op.isAccessor : Op → Bool
  | .mark => false
  | .print _ => false
  | _ => true

/-- Run one operation on a value: the state afterwards, and the outcome (the
hooks have no result of interest). -/
def Op.run (op : Op) (w : World) (v : SCM) : World × Outcome SCM :=
  match op with
  | .date => (w, msg_date w v)
  | .size => (w, msg_size w v)
  | .priority => (w, msg_prio w v)
  | .flags => (w, msg_flags w v)
  | .subject => (w, msg_subject w v)
  | .sender => (w, msg_from w v)
  | .to => (w, msg_to w v)
  | .cc => (w, msg_cc w v)
  | .bcc => (w, msg_bcc w v)
  | .path => (w, msg_path w v)
  | .maildir => (w, msg_maildir w v)
  | .message_id => (w, msg_msgid w v)
  | .body html => (w, msg_body w v html)
  | .header name => (w, msg_header w v name)
  | .tags => (w, msg_tags w v)
  | .references => (w, msg_refs w v)
  | .mark => msg_mark w v
  | .print port =>
    let r := msg_print w v port
    (r.1, match r.2 with
          | .ok _ => .ok .UNSPECIFIED
          | .wrong_type_arg s p b => .wrong_type_arg s p b
          | .mu_error s e => .mu_error s e
          | .bad_pointer b => .bad_pointer b)

/-! ## Vocabulary of the properties -/

/-- The flags of a list, OR-ed together. -/
def flagsOr (fs : List MuMsgFlag) : Nat :=
  fs.foldl (fun acc flag => acc ||| flag.bit) 0

/-- The symbol a flag is listed as. -/
def flagSymbol (flag : MuMsgFlag) : SCM := .symbol (mu_msg_flag_name flag)

/-- The rendering of an optional string the specification asks for: the
stored string when there is one, the absent marker otherwise. -/
def optString : Option (List Nat) → SCM
  | some s => .string (c_str s)
  | none => .UNSPECIFIED

/-- The entry the specification asks for a contact: the pair of its name and
its address. -/
def contactEntry (c : MuMsgContact) : SCM :=
  SCM.ofList [optString c.name, optString c.address]

/-- The contacts of a role, as the specification words it: those of the
message that have the role, in the order of the message. -/
def contactsOf (msg : MuMsg) (role : MuMsgContactType) : List SCM :=
  (msg.contacts.filter (fun c => c.type = role)).map contactEntry

/-- The ownership tag of the wrapper behind a value, if it wraps one. -/
def tagOf (w : World) (msg_smob : SCM) : Option Bool :=
  (wrapperOf w msg_smob).map (fun msgwrap => msgwrap._unrefme)

/-- The exported accessor of a string field. -/
def stringAccessor : MuMsgFieldId → Option (World → SCM → Outcome SCM)
  | .SUBJECT => some msg_subject
  | .FROM => some msg_from
  | .PATH => some msg_path
  | .MAILDIR => some msg_maildir
  | .MSGID => some msg_msgid
  | _ => none

/-! ## Sample data -/

/-- A message with an undecodable subject and body, a well-formed sender, an
empty maildir and no message-id; it is seen and flagged. -/
def sampleMsg : MuMsg where
  field_string := fun mfid =>
    match mfid with
    | .SUBJECT => some [0x61, 0xff, 0x62]
    | .FROM => some [0xc3, 0xa9]
    | .MAILDIR => some []
    | .PATH => some [0x2f, 0x6d]
    | _ => none
  field_numeric := fun _ => 0
  field_string_list := fun _ => []
  prio := .NORMAL
  flags := MuMsgFlag.SEEN.bit ||| MuMsgFlag.FLAGGED.bit
  contacts :=
    [{ type := .TO, name := none, address := some [0x61] },
     { type := .CC, name := some [0x62], address := some [0x63] },
     { type := .TO, name := some [0x64], address := none }]
  body_html := none
  body_text := some [0x61, 0xff, 0x62]
  header := fun _ => none
  path := some [0x2f, 0x6d]

/-- A message for which the library has no value at all. -/
def bareMsg : MuMsg where
  field_string := fun _ => none
  field_numeric := fun _ => 0
  field_string_list := fun _ => []
  prio := .NORMAL
  flags := 0
  contacts := []
  body_html := none
  body_text := none
  header := fun _ => none
  path := none

/-- A state whose one wrapper holds the bare message. -/
def bareWorld : World :=
  { MSG_TAG := 7, heap := [{ _msg := bareMsg, _unrefme := false }], unrefs := [], output := [] }

/-- A state with no wrapper yet. -/
def emptyWorld : World := { MSG_TAG := 7, heap := [], unrefs := [], output := [] }

/-- A parser that reads the sample message from every path. -/
def sampleParser : List Nat → Option MuMsg × Option GError :=
  fun _ => (some sampleMsg, none)

/-- The state after the sample message was wrapped. -/
def sampleWorld : World := (mu_guile_msg_to_scm emptyWorld (some sampleMsg)).1

/-- The smob of the sample message. -/
def sampleSmob : SCM := (mu_guile_msg_to_scm emptyWorld (some sampleMsg)).2

/-- The sample message in a wrapper that is tagged owned. -/
def ownedWorld : World :=
  { MSG_TAG := 7, heap := [{ _msg := sampleMsg, _unrefme := true }], unrefs := [], output := [] }

/-! ## The validator and well-formed text -/

/-- A well-formed sequence at the head of a buffer is what one step of the scan
reads there. -/
theorem validate_char_append (s r : List Nat) (hs : WellFormedSeq s = true)
    (h0 : ∀ x ∈ s.head?, x ≠ 0) : validate_char (s ++ r) = s.length := by
  rcases s with _ | ⟨b, _ | ⟨c1, _ | ⟨c2, _ | ⟨c3, _ | ⟨c4, t⟩⟩⟩⟩⟩
  · simp [WellFormedSeq] at hs
  · simp [WellFormedSeq] at hs
    simp at h0
    simp [validate_char, h0, hs]
  · simp [WellFormedSeq, inRange] at hs
    have h1 : ¬ b = 0 := by omega
    have h2 : ¬ b < 128 := by omega
    have h3 : ¬ b < 194 := by omega
    have h4 : b < 224 := by omega
    simp [validate_char, inRange, h1, h2, h3, h4, hs]
  · simp [WellFormedSeq, inRange] at hs
    have h1 : ¬ b = 0 := by omega
    have h2 : ¬ b < 128 := by omega
    have h3 : ¬ b < 194 := by omega
    have h4 : ¬ b < 224 := by omega
    have h5 : b < 240 := by omega
    simp only [validate_char, inRange, h1, h2, h3, h4, h5, List.cons_append, List.nil_append,
      if_true, if_false, List.length_cons, List.length_nil]
    rw [if_pos]
    simp only [Bool.and_eq_true, decide_eq_true_eq]
    split_ifs <;> omega
  · simp [WellFormedSeq, inRange] at hs
    have h1 : ¬ b = 0 := by omega
    have h2 : ¬ b < 128 := by omega
    have h3 : ¬ b < 194 := by omega
    have h4 : ¬ b < 224 := by omega
    have h5 : ¬ b < 240 := by omega
    have h6 : b < 245 := by omega
    simp only [validate_char, inRange, h1, h2, h3, h4, h5, h6, List.cons_append, List.nil_append,
      if_true, if_false, List.length_cons, List.length_nil]
    rw [if_pos]
    simp only [Bool.and_eq_true, decide_eq_true_eq]
    split_ifs <;> omega
  · simp [WellFormedSeq] at hs

/-- What one step of the scan reads is a well-formed sequence without a `0`
byte. -/
theorem validate_char_spec (bs : List Nat) (h : validate_char bs ≠ 0) :
    validate_char bs ≤ bs.length ∧ WellFormedSeq (bs.take (validate_char bs)) = true ∧
      ∀ x ∈ bs.take (validate_char bs), x ≠ 0 := by
  rcases bs with _ | ⟨b, rest⟩
  · simp [validate_char] at h
  · unfold validate_char at h ⊢
    by_cases h1 : b = 0
    · simp [h1] at h
    by_cases h2 : b < 0x80
    · simp [h1, h2, WellFormedSeq]
    by_cases h3 : b < 0xc2
    · simp [h1, h2, h3] at h
    by_cases h4 : b < 0xe0
    · rcases rest with _ | ⟨c1, r1⟩
      · simp [h1, h2, h3, h4] at h
      · by_cases hc : inRange 0x80 0xbf c1 = true
        · simp only [h1, h2, h3, h4, hc, if_true, if_false]
          simp [inRange] at hc
          simp [WellFormedSeq, inRange]
          omega
        · simp [h1, h2, h3, h4, hc] at h
    by_cases h5 : b < 0xf0
    · rcases rest with _ | ⟨c1, _ | ⟨c2, r2⟩⟩
      · simp [h1, h2, h3, h4, h5] at h
      · simp [h1, h2, h3, h4, h5] at h
      · simp only [h1, h2, h3, h4, h5, if_true, if_false] at h ⊢
        split_ifs at h ⊢ <;>
          first
          | exact absurd rfl h
          | (simp_all [inRange, WellFormedSeq]; done)
          | (simp_all [inRange, WellFormedSeq]; omega)
    by_cases h6 : b < 0xf5
    · rcases rest with _ | ⟨c1, _ | ⟨c2, _ | ⟨c3, r3⟩⟩⟩
      · simp [h1, h2, h3, h4, h5, h6] at h
      · simp [h1, h2, h3, h4, h5, h6] at h
      · simp [h1, h2, h3, h4, h5, h6] at h
      · simp only [h1, h2, h3, h4, h5, h6, if_true, if_false] at h ⊢
        split_ifs at h ⊢ <;>
          first
          | exact absurd rfl h
          | (simp_all [inRange, WellFormedSeq]; done)
          | (simp_all [inRange, WellFormedSeq]; omega)
    · simp [h1, h2, h3, h4, h5, h6] at h

/-- One step of the scan reads at most four bytes. -/
theorem validate_char_le_four (bs : List Nat) : validate_char bs ≤ 4 := by
  by_cases h : validate_char bs = 0
  · omega
  · have := validate_char_spec bs h
    generalize validate_char bs = n at *
    by_contra hn
    obtain ⟨h1, h2, -⟩ := this
    rcases bs with _ | ⟨b, _ | ⟨c1, _ | ⟨c2, _ | ⟨c3, _ | ⟨c4, t⟩⟩⟩⟩⟩ <;> simp at h1
    · omega
    · omega
    · omega
    · omega
    · omega
    · obtain ⟨m, rfl⟩ : ∃ m, n = m + 5 := ⟨n - 5, by omega⟩
      simp [WellFormedSeq] at h2

/-- The scan, one character at a time. -/
theorem fast_validate_unfold (bs : List Nat) :
    fast_validate bs =
      if validate_char bs = 0 then 0
      else validate_char bs + fast_validate (bs.drop (validate_char bs)) := by
  rcases bs with _ | ⟨b, rest⟩
  · rfl
  · have h4 := validate_char_le_four (b :: rest)
    by_cases h0 : validate_char (b :: rest) = 0
    · rw [if_pos h0]
      unfold fast_validate
      split <;> simp_all
    · have hs := (validate_char_spec (b :: rest) h0).1
      rw [if_neg h0]
      have : validate_char (b :: rest) = 1 ∨ validate_char (b :: rest) = 2
            ∨ validate_char (b :: rest) = 3 ∨ validate_char (b :: rest) = 4 := by omega
      rcases this with h | h | h | h
      · rw [fast_validate.eq_2 _ _ h, h]; simp
      · rcases rest with _ | ⟨c1, r1⟩
        · simp [h] at hs
        · rw [fast_validate.eq_3 _ _ _ h, h]; simp
      · rcases rest with _ | ⟨c1, _ | ⟨c2, r2⟩⟩
        · simp [h] at hs
        · simp [h] at hs
        · rw [fast_validate.eq_4 _ _ _ _ h, h]; simp
      · rcases rest with _ | ⟨c1, _ | ⟨c2, _ | ⟨c3, r3⟩⟩⟩
        · simp [h] at hs
        · simp [h] at hs
        · simp [h] at hs
        · rw [fast_validate.eq_5 _ _ _ _ _ h, h]; simp

/-- The bytes the scan passes are valid text without a `0` byte, and the scan
stops where no further character can be read. -/
theorem fast_validate_accepted (bs : List Nat) :
    ValidUtf8 (bs.take (fast_validate bs)) ∧ (∀ x ∈ bs.take (fast_validate bs), x ≠ 0) ∧
      fast_validate bs ≤ bs.length ∧ validate_char (bs.drop (fast_validate bs)) = 0 := by
  generalize h : bs.length = n
  induction n using Nat.strong_induction_on generalizing bs with
  | _ n ih =>
    rw [fast_validate_unfold bs]
    by_cases h0 : validate_char bs = 0
    · simp [h0, ValidUtf8.nil]
    · obtain ⟨hle, hwf, hnz⟩ := validate_char_spec bs h0
      have hlt : (bs.drop (validate_char bs)).length < n := by
        simp only [List.length_drop]; omega
      obtain ⟨i1, i2, i3, i4⟩ := ih _ hlt (bs.drop (validate_char bs)) rfl
      rw [if_neg h0, List.take_add]
      refine ⟨ValidUtf8.seq _ _ hwf i1, ?_, ?_, ?_⟩
      · intro x hx
        rcases List.mem_append.1 hx with hx | hx
        · exact hnz x hx
        · exact i2 x hx
      · simp only [List.length_drop] at i3; omega
      · rw [List.drop_drop] at i4
        exact i4

/-- A well-formed sequence is not empty. -/
theorem WellFormedSeq_ne_nil {s : List Nat} (h : WellFormedSeq s = true) : s ≠ [] := by
  rintro rfl; simp [WellFormedSeq] at h

/-- The scan passes valid text that has no `0` byte and goes on behind it. -/
theorem fast_validate_append (s r : List Nat) (hs : ValidUtf8 s) (h0 : ∀ x ∈ s, x ≠ 0) :
    fast_validate (s ++ r) = s.length + fast_validate r := by
  induction hs with
  | nil => simp
  | seq s rest hwf _ ih =>
    have hvc : validate_char (s ++ (rest ++ r)) = s.length :=
      validate_char_append s (rest ++ r) hwf (by
        intro x hx
        apply h0 x
        rcases s with _ | ⟨a, t⟩
        · simp at hx
        · simp at hx; simp [hx])
    have hne : s.length ≠ 0 := by
      have := WellFormedSeq_ne_nil hwf
      simpa using this
    rw [List.append_assoc, fast_validate_unfold, hvc, if_neg hne, List.drop_left,
      ih (fun x hx => h0 x (List.mem_append_right _ hx))]
    simp; omega

/-- The string held by a buffer has no `0` byte. -/
theorem c_str_nonzero (bs : List Nat) : ∀ x ∈ c_str bs, x ≠ 0 := by
  intro x hx
  have := List.mem_takeWhile_imp hx
  simpa using this

/-- Bytes without a `0` at the head of a buffer belong to its string. -/
theorem c_str_append_of_nonzero (s r : List Nat) (h : ∀ x ∈ s, x ≠ 0) :
    c_str (s ++ r) = s ++ c_str r := by
  unfold c_str
  exact List.takeWhile_append_of_pos (by simpa using h)

/-- A buffer without a `0` byte is its own string. -/
theorem c_str_of_nonzero (s : List Nat) (h : ∀ x ∈ s, x ≠ 0) : c_str s = s := by
  have := c_str_append_of_nonzero s [] h
  simpa [c_str] using this

/-- A buffer is its string followed by the rest. -/
theorem c_str_append_dropWhile (bs : List Nat) :
    c_str bs ++ bs.dropWhile (fun b => b != 0) = bs := by
  unfold c_str
  exact List.takeWhile_append_dropWhile _ _

/-- Where the scan reads no character in a buffer it reads none in its string. -/
theorem validate_char_c_str_zero (r : List Nat) (h : validate_char r = 0) :
    validate_char (c_str r) = 0 := by
  by_contra hne
  obtain ⟨hle, hwf, hnz⟩ := validate_char_spec (c_str r) hne
  have hr : r = (c_str r).take (validate_char (c_str r)) ++
      ((c_str r).drop (validate_char (c_str r)) ++ r.dropWhile (fun b => b != 0)) := by
    rw [← List.append_assoc, List.take_append_drop, c_str_append_dropWhile]
  have := validate_char_append _ ((c_str r).drop (validate_char (c_str r)) ++
      r.dropWhile (fun b => b != 0)) hwf (by
        intro x hx
        apply hnz x
        exact List.mem_of_mem_head? hx)
  rw [← hr, h] at this
  rw [List.length_take] at this
  omega

/-- The scan of a buffer is the scan of its string. -/
theorem fast_validate_c_str (bs : List Nat) : fast_validate (c_str bs) = fast_validate bs := by
  obtain ⟨h1, h2, h3, h4⟩ := fast_validate_accepted bs
  have hsplit : c_str bs = bs.take (fast_validate bs) ++ c_str (bs.drop (fast_validate bs)) := by
    conv_lhs => rw [← List.take_append_drop (fast_validate bs) bs]
    exact c_str_append_of_nonzero _ _ h2
  have hz : fast_validate (c_str (bs.drop (fast_validate bs))) = 0 := by
    rw [fast_validate_unfold, if_pos (validate_char_c_str_zero _ h4)]
  rw [hsplit, fast_validate_append _ _ h1 h2, hz, List.length_take]
  omega

/-- The verdict of the validator is that the scan reached the terminator. -/
theorem verdict_iff (bs : List Nat) (k : Nat) (hz : ∀ x ∈ bs.take k, x ≠ 0) :
    at_terminator (bs.drop k) = true ↔ c_str bs = bs.take k := by
  have hsplit : c_str bs = bs.take k ++ c_str (bs.drop k) := by
    conv_lhs => rw [← List.take_append_drop k bs]
    exact c_str_append_of_nonzero _ _ hz
  rw [hsplit]
  rcases hd : bs.drop k with _ | ⟨b, t⟩
  · simp [c_str, at_terminator]
  · by_cases hb : b = 0
    · simp [hb, c_str, at_terminator]
    · simp [hb, c_str, List.takeWhile_cons, at_terminator]

/-- The validator accepts a buffer exactly when its string is valid UTF-8. -/
theorem g_utf8_validate_true_iff (bs : List Nat) :
    (g_utf8_validate bs).1 = true ↔ ValidUtf8 (c_str bs) := by
  obtain ⟨h1, h2, h3, h4⟩ := fast_validate_accepted bs
  unfold g_utf8_validate
  simp only
  rw [verdict_iff bs _ h2]
  constructor
  · intro h; rw [h]; exact h1
  · intro h
    have := fast_validate_append (c_str bs) [] h (c_str_nonzero bs)
    rw [List.append_nil, fast_validate_c_str] at this
    have hfv : fast_validate bs = (c_str bs).length := by simpa [fast_validate] using this
    rw [hfv]
    have e : List.take (c_str bs).length (c_str bs ++ bs.dropWhile (fun b => b != 0))
        = c_str bs := List.take_left _ _
    rw [c_str_append_dropWhile] at e
    exact e.symm

/-- On valid text the end pointer is the end of the string. -/
theorem g_utf8_validate_true_end (bs : List Nat) (h : (g_utf8_validate bs).1 = true) :
    (g_utf8_validate bs).2 = (c_str bs).length := by
  have hv := (g_utf8_validate_true_iff bs).1 h
  have := fast_validate_append (c_str bs) [] hv (c_str_nonzero bs)
  rw [List.append_nil, fast_validate_c_str] at this
  simpa [g_utf8_validate, fast_validate] using this

/-- A start of the string of a buffer is a start of the buffer. -/
theorem take_c_str (bs : List Nat) (k : Nat) (hk : k ≤ (c_str bs).length) :
    (c_str bs).take k = bs.take k := by
  conv_rhs => rw [← c_str_append_dropWhile bs]
  rw [List.take_append_of_le_length hk]

/-- The validator rejects a buffer with end offset `k` exactly when the first
invalid byte sequence of its string starts at `k`. -/
theorem g_utf8_validate_false_iff (bs : List Nat) (k : Nat) :
    g_utf8_validate bs = (false, k) ↔ FirstInvalidAt (c_str bs) k := by
  obtain ⟨h1, h2, h3, h4⟩ := fast_validate_accepted bs
  constructor
  · intro h
    have hk : fast_validate bs = k := by
      have := congrArg Prod.snd h
      simpa [g_utf8_validate] using this
    have hv : at_terminator (bs.drop k) = false := by
      have := congrArg Prod.fst h
      simpa [g_utf8_validate, hk] using this
    rw [hk] at h1 h2 h3 h4
    have hsplit : c_str bs = bs.take k ++ c_str (bs.drop k) := by
      conv_lhs => rw [← List.take_append_drop k bs]
      exact c_str_append_of_nonzero _ _ h2
    have hlen : (bs.take k).length = k := by rw [List.length_take]; omega
    obtain ⟨b, t, hd, hb⟩ : ∃ b t, bs.drop k = b :: t ∧ b ≠ 0 := by
      rcases hd : bs.drop k with _ | ⟨b, t⟩
      · simp [hd, at_terminator] at hv
      · refine ⟨b, t, rfl, ?_⟩
        simpa [hd, at_terminator] using hv
    have hcd : c_str (bs.drop k) = b :: c_str t := by
      rw [hd]; simp [c_str, List.takeWhile_cons, hb]
    refine ⟨?_, ?_, ?_⟩
    · rw [hsplit, List.length_append, hlen, hcd]; simp
    · rw [hsplit, List.take_left' hlen]; exact h1
    · intro s r hsr
      rw [hsplit, List.drop_left' hlen] at hsr
      by_contra hwf
      have hwf : WellFormedSeq s = true := by simpa using hwf
      have hz := validate_char_c_str_zero _ h4
      have := validate_char_append s r hwf (by
        intro x hx
        apply c_str_nonzero (bs.drop k) x
        rw [hsr]
        exact List.mem_append_left _ (List.mem_of_mem_head? hx))
      rw [← hsr, hz] at this
      exact WellFormedSeq_ne_nil hwf (List.length_eq_zero.1 this.symm)
  · rintro ⟨hk, hv, hno⟩
    have hlen : ((c_str bs).take k).length = k := by rw [List.length_take]; omega
    have hnz : ∀ x ∈ (c_str bs).take k, x ≠ 0 :=
      fun x hx => c_str_nonzero bs x (List.mem_of_mem_take hx)
    have hz : validate_char ((c_str bs).drop k) = 0 := by
      by_contra hne
      obtain ⟨-, hwf, -⟩ := validate_char_spec _ hne
      have := hno _ _ (List.take_append_drop (validate_char ((c_str bs).drop k))
        ((c_str bs).drop k)).symm
      rw [hwf] at this
      exact Bool.noConfusion this
    have hfv : fast_validate bs = k := by
      rw [← fast_validate_c_str]
      conv_lhs => rw [← List.take_append_drop k (c_str bs)]
      rw [fast_validate_append _ _ hv hnz, hlen, fast_validate_unfold, if_pos hz]
      rfl
    have hv2 : at_terminator (bs.drop k) = false := by
      by_contra hne
      have hne : at_terminator (bs.drop k) = true := by simpa using hne
      have htk := take_c_str bs k (le_of_lt hk)
      rw [verdict_iff bs k (by rw [← htk]; exact hnz)] at hne
      rw [← htk] at hne
      have := congrArg List.length hne
      rw [hlen] at this
      omega
    simp [g_utf8_validate, hfv, hv2]

/-! ## Strings -/

/-- The outcome of `msg_str_field` on a message whose field has a value. -/
theorem msg_str_field_some (w : World) (msg_smob : SCM) (msgwrap : MuMsgWrapper)
    (mfid : MuMsgFieldId) (val : List Nat)
    (hw : wrapperOf w msg_smob = some msgwrap)
    (hval : mu_msg_get_field_string msgwrap._msg mfid = some val) :
    msg_str_field w msg_smob mfid =
      if (g_utf8_validate val).1 then .ok (.string (c_str val))
      else .ok (.string ((c_str val).take (g_utf8_validate val).2)) := by
  unfold msg_str_field
  simp only [hw, hval]
  by_cases h : (g_utf8_validate val).1 = true
  · simp [h, scm_from_utf8_string]
  · simp only [h, Bool.not_eq_true, Bool.false_eq_true, if_false]
    have hf : (g_utf8_validate val).1 = false := by simpa using h
    simp only [hf, Bool.not_false, if_true, scm_from_utf8_string, g_strndup]
    rw [c_str_of_nonzero]
    intro x hx
    exact c_str_nonzero val x (List.mem_of_mem_take hx)

/-- Every string that `msg_str_field` returns is valid UTF-8. -/
theorem msg_str_field_valid (w : World) (msg_smob : SCM) (mfid : MuMsgFieldId)
    (bytes : List Nat) (h : msg_str_field w msg_smob mfid = .ok (.string bytes)) :
    ValidUtf8 bytes := by
  cases hw : wrapperOf w msg_smob with
  | none => simp [msg_str_field, hw] at h
  | some msgwrap =>
    cases hval : mu_msg_get_field_string msgwrap._msg mfid with
    | none => simp [msg_str_field, hw, hval] at h
    | some val =>
      rw [msg_str_field_some w msg_smob msgwrap mfid val hw hval] at h
      by_cases hv : (g_utf8_validate val).1 = true
      · rw [if_pos hv] at h
        have hb : c_str val = bytes := by simpa using h
        exact hb ▸ (g_utf8_validate_true_iff val).1 hv
      · rw [if_neg hv] at h
        have hb : (c_str val).take (g_utf8_validate val).2 = bytes := by simpa using h
        have hf : (g_utf8_validate val).1 = false := by simpa using hv
        exact hb ▸ ((g_utf8_validate_false_iff val _).1 (Prod.ext hf rfl)).2.1

/-- Claim C1.  When the raw value of a string field is not valid UTF-8, its
first invalid byte sequence starts at some offset `k`; for every such offset,
`msg_str_field` returns exactly the first `k` bytes of the raw value, and that
prefix is valid UTF-8 (it is a run of well-formed sequences, and the validator
accepts it). -/
theorem C1_msg_str_field_truncates (w : World) (msg_smob : SCM) (msgwrap : MuMsgWrapper)
    (mfid : MuMsgFieldId) (val : List Nat)
    (hw : wrapperOf w msg_smob = some msgwrap)
    (hval : mu_msg_get_field_string msgwrap._msg mfid = some val)
    (hinv : ¬ ValidUtf8 (c_str val)) :
    (∃ k, FirstInvalidAt (c_str val) k) ∧
    ∀ k, FirstInvalidAt (c_str val) k →
      msg_str_field w msg_smob mfid = .ok (.string (val.take k)) ∧
      val.take k = (c_str val).take k ∧
      ValidUtf8 (val.take k) ∧
      g_utf8_validate (val.take k) = (true, k) := by
  have hf : (g_utf8_validate val).1 = false := by
    have := (g_utf8_validate_true_iff val).not.2 hinv
    simpa using this
  have hfst : FirstInvalidAt (c_str val) (g_utf8_validate val).2 :=
    (g_utf8_validate_false_iff val _).1 (Prod.ext hf rfl)
  refine ⟨⟨_, hfst⟩, ?_⟩
  intro k hk
  have hg := (g_utf8_validate_false_iff val k).2 hk
  have htk := take_c_str val k (le_of_lt hk.1)
  have hvalid : ValidUtf8 (val.take k) := htk ▸ hk.2.1
  have hnz : ∀ x ∈ val.take k, x ≠ 0 := by
    rw [← htk]; exact fun x hx => c_str_nonzero val x (List.mem_of_mem_take hx)
  refine ⟨?_, htk.symm, hvalid, ?_⟩
  · rw [msg_str_field_some w msg_smob msgwrap mfid val hw hval, hg]
    simp [htk]
  · have hc : c_str (val.take k) = val.take k := c_str_of_nonzero _ hnz
    have ht : (g_utf8_validate (val.take k)).1 = true :=
      (g_utf8_validate_true_iff _).2 (hc.symm ▸ hvalid)
    have he := g_utf8_validate_true_end _ ht
    have hl : (val.take k).length = k := by
      rw [← htk, List.length_take]; exact Nat.min_eq_left (le_of_lt hk.1)
    rw [hc, hl] at he
    exact Prod.ext ht he

/-- The sample subject `a`, `0xff`, `b` is cut after its first byte. -/
theorem C1_witness :
    wrapperOf sampleWorld sampleSmob = some { _msg := sampleMsg, _unrefme := false } ∧
    mu_msg_get_field_string sampleMsg .SUBJECT = some [0x61, 0xff, 0x62] ∧
    ¬ ValidUtf8 (c_str [0x61, 0xff, 0x62]) ∧
    FirstInvalidAt (c_str [0x61, 0xff, 0x62]) 1 ∧
    msg_str_field sampleWorld sampleSmob .SUBJECT = .ok (.string (List.take 1 [0x61, 0xff, 0x62])) ∧
    ValidUtf8 (List.take 1 [0x61, 0xff, 0x62]) :=
  have hinv : ¬ ValidUtf8 (c_str [0x61, 0xff, 0x62]) :=
    (g_utf8_validate_true_iff _).not.1 (by decide)
  have hk : FirstInvalidAt (c_str [0x61, 0xff, 0x62]) 1 :=
    (g_utf8_validate_false_iff _ 1).1 (by decide)
  have h := (C1_msg_str_field_truncates sampleWorld sampleSmob
    { _msg := sampleMsg, _unrefme := false } .SUBJECT [0x61, 0xff, 0x62] rfl rfl hinv).2 1 hk
  ⟨rfl, rfl, hinv, hk, h.1, h.2.2.1⟩

/-- Claim C2.  When the raw value of a string field is present and is valid
UTF-8, `msg_str_field` returns the string the value holds, byte for byte; the
empty string comes back as the empty string. -/
theorem C2_msg_str_field_valid_unchanged (w : World) (msg_smob : SCM) (msgwrap : MuMsgWrapper)
    (mfid : MuMsgFieldId) (val : List Nat)
    (hw : wrapperOf w msg_smob = some msgwrap)
    (hval : mu_msg_get_field_string msgwrap._msg mfid = some val)
    (hvalid : ValidUtf8 (c_str val)) :
    msg_str_field w msg_smob mfid = .ok (.string (c_str val)) ∧
    ((∀ b ∈ val, b ≠ 0) → msg_str_field w msg_smob mfid = .ok (.string val)) ∧
    (val = [] → msg_str_field w msg_smob mfid = .ok (.string [])) := by
  have ht := (g_utf8_validate_true_iff val).2 hvalid
  have h1 : msg_str_field w msg_smob mfid = .ok (.string (c_str val)) := by
    rw [msg_str_field_some w msg_smob msgwrap mfid val hw hval, ht]; rfl
  refine ⟨h1, ?_, ?_⟩
  · intro hnz; rw [h1, c_str_of_nonzero val hnz]
  · intro he; rw [h1, he]; rfl

/-- The sample sender, a two-byte character, comes back whole. -/
theorem C2_witness :
    wrapperOf sampleWorld sampleSmob = some { _msg := sampleMsg, _unrefme := false } ∧
    mu_msg_get_field_string sampleMsg .FROM = some [0xc3, 0xa9] ∧
    ValidUtf8 (c_str [0xc3, 0xa9]) ∧
    (msg_str_field sampleWorld sampleSmob .FROM = .ok (.string (c_str [0xc3, 0xa9])) ∧
      ((∀ b ∈ [0xc3, 0xa9], b ≠ 0) →
        msg_str_field sampleWorld sampleSmob .FROM = .ok (.string [0xc3, 0xa9])) ∧
      (([0xc3, 0xa9] : List Nat) = [] →
        msg_str_field sampleWorld sampleSmob .FROM = .ok (.string []))) :=
  ⟨rfl, rfl, (g_utf8_validate_true_iff _).1 (by decide),
    C2_msg_str_field_valid_unchanged sampleWorld sampleSmob
      { _msg := sampleMsg, _unrefme := false } .FROM [0xc3, 0xa9] rfl rfl
      ((g_utf8_validate_true_iff _).1 (by decide))⟩

/-! ## Flags -/

/-- A value that wraps a message passes the tag check. -/
theorem wrapperOf_is_msg (w : World) (v : SCM) (msgwrap : MuMsgWrapper)
    (hw : wrapperOf w v = some msgwrap) : mu_guile_scm_is_msg w v = true := by
  unfold wrapperOf SCM_CDR_wrapper at hw
  unfold mu_guile_scm_is_msg
  cases v <;> simp at hw ⊢
  by_contra hne
  simp [hne] at hw

/-- Append on Scheme lists is append on their elements. -/
theorem scm_append2_ofList (xs ys : List SCM) :
    scm_append2 (SCM.ofList xs) (SCM.ofList ys) = SCM.ofList (xs ++ ys) := by
  induction xs with
  | nil => cases ys <;> simp [SCM.ofList, scm_append2]
  | cons x xs ih => simp [SCM.ofList, scm_append2, ih]

/-- Appending a one-element list the way the callbacks do it. -/
theorem scm_append_x_snoc (xs : List SCM) (y : SCM) :
    scm_append_x (scm_list_2 (SCM.ofList xs) (scm_list_1 y)) = SCM.ofList (xs ++ [y]) := by
  have : scm_list_1 y = SCM.ofList [y] := rfl
  rw [this, ← scm_append2_ofList]
  simp [scm_list_2, scm_append_x]

/-- The test of `check_flag` is the test of the bit of the flag. -/
theorem flag_bit_test (mask : Nat) (flag : MuMsgFlag) :
    mask &&& flag.bit ≠ 0 ↔ mask.testBit flag.index = true := by
  unfold MuMsgFlag.bit
  rw [Nat.one_shiftLeft, Nat.and_two_pow]
  cases mask.testBit flag.index <;> simp

/-- Visiting flags with `check_flag` appends the symbols of those set in the
mask, in the order visited. -/
theorem check_flag_foldl (mask : Nat) (fs : List MuMsgFlag) (xs : List SCM) :
    fs.foldl (fun d flag => check_flag flag d) { flags := mask, lst := SCM.ofList xs } =
      { flags := mask,
        lst := SCM.ofList (xs ++ (fs.filter (fun fl => mask.testBit fl.index)).map flagSymbol) } := by
  induction fs generalizing xs with
  | nil => simp
  | cons f fs ih =>
    rw [List.foldl_cons]
    by_cases hb : mask.testBit f.index = true
    · have : check_flag f { flags := mask, lst := SCM.ofList xs } =
          { flags := mask, lst := SCM.ofList (xs ++ [flagSymbol f]) } := by
        unfold check_flag
        simp only [(flag_bit_test mask f).2 hb, ne_eq, not_false_eq_true, if_true]
        rw [scm_append_x_snoc]; rfl
      rw [this, ih]
      simp [List.filter_cons, hb]
    · have : check_flag f { flags := mask, lst := SCM.ofList xs } =
          { flags := mask, lst := SCM.ofList xs } := by
        unfold check_flag
        rw [if_neg (fun h => hb ((flag_bit_test mask f).1 h))]
      rw [this, ih]
      simp [List.filter_cons, hb]

/-- The bits of an OR of flags. -/
theorem flagsOr_testBit (fs : List MuMsgFlag) (acc j : Nat) :
    (fs.foldl (fun acc flag => acc ||| flag.bit) acc).testBit j =
      (acc.testBit j || fs.any (fun fl => decide (fl.index = j))) := by
  induction fs generalizing acc with
  | nil => simp
  | cons f fs ih =>
    rw [List.foldl_cons, ih, Nat.testBit_lor]
    simp [MuMsgFlag.bit, Nat.one_shiftLeft, Nat.testBit_two_pow, Bool.or_assoc]

/-- The registry lists every flag. -/
theorem mem_ALL_FLAGS (flag : MuMsgFlag) : flag ∈ ALL_FLAGS := by
  cases flag <;> decide

/-- The registry has eleven positions. -/
theorem index_lt (flag : MuMsgFlag) : flag.index < 11 := by
  cases flag <;> decide

/-- Every position of the registry holds a flag. -/
theorem index_surj (j : Nat) (hj : j < 11) : ∃ flag : MuMsgFlag, flag.index = j := by
  interval_cases j
  exacts [⟨.NEW, rfl⟩, ⟨.PASSED, rfl⟩, ⟨.REPLIED, rfl⟩, ⟨.SEEN, rfl⟩, ⟨.TRASHED, rfl⟩,
    ⟨.DRAFT, rfl⟩, ⟨.FLAGGED, rfl⟩, ⟨.UNREAD, rfl⟩, ⟨.SIGNED, rfl⟩, ⟨.ENCRYPTED, rfl⟩,
    ⟨.HAS_ATTACH, rfl⟩]

/-- The flags picked out of a mask, OR-ed together, are the low eleven bits of
the mask. -/
theorem flagsOr_filter (mask : Nat) :
    flagsOr (ALL_FLAGS.filter (fun fl => mask.testBit fl.index)) = mask % 2 ^ 11 := by
  apply Nat.eq_of_testBit_eq
  intro j
  unfold flagsOr
  rw [flagsOr_testBit, Nat.testBit_mod_two_pow, Nat.zero_testBit, Bool.false_or]
  by_cases hj : j < 11
  · obtain ⟨flag, rfl⟩ := index_surj j hj
    by_cases hb : mask.testBit flag.index = true
    · simp only [hb, hj, decide_True, Bool.and_true]
      rw [List.any_eq_true]
      exact ⟨flag, List.mem_filter.2 ⟨mem_ALL_FLAGS flag, hb⟩, by simp⟩
    · have hb : mask.testBit flag.index = false := by simpa using hb
      simp only [hb, Bool.and_false]
      rw [List.any_eq_false]
      intro fl hfl
      have := (List.mem_filter.1 hfl).2
      intro he
      have he : fl.index = flag.index := by simpa using he
      rw [he, hb] at this
      exact Bool.noConfusion this
  · simp only [hj, decide_False, Bool.false_and]
    rw [List.any_eq_false]
    intro fl _ he
    have he : fl.index = j := by simpa using he
    exact hj (he ▸ index_lt fl)

/-- Claim C3.  The flags accessor returns, for the mask of the message, the
symbols of the flags that are set in it: in the declaration order of the
registry, without duplicates, one entry for each set bit, and OR-ed together
the listed flags give back the mask (its bits within the flag vocabulary; the
whole mask when it has no other bit). -/
theorem C3_msg_flags_decomposes (w : World) (MSG : SCM) (msgwrap : MuMsgWrapper)
    (hw : wrapperOf w MSG = some msgwrap) :
    ∃ fs : List MuMsgFlag,
      msg_flags w MSG = .ok (SCM.ofList (fs.map flagSymbol)) ∧
      fs.Sublist ALL_FLAGS ∧
      fs.Nodup ∧ (fs.map flagSymbol).Nodup ∧
      (∀ flag, flag ∈ fs ↔ msgwrap._msg.flags &&& flag.bit ≠ 0) ∧
      flagsOr fs = msgwrap._msg.flags % 2 ^ 11 ∧
      (msgwrap._msg.flags < 2 ^ 11 → flagsOr fs = msgwrap._msg.flags) := by
  refine ⟨ALL_FLAGS.filter (fun fl => msgwrap._msg.flags.testBit fl.index), ?_, ?_, ?_, ?_, ?_, ?_, ?_⟩
  · unfold msg_flags
    simp only [wrapperOf_is_msg w MSG msgwrap hw, hw, Bool.not_true, Bool.false_eq_true, if_false]
    unfold mu_msg_flags_foreach
    have := check_flag_foldl msgwrap._msg.flags ALL_FLAGS []
    simp only [SCM.ofList, List.nil_append] at this
    rw [this]
  · exact List.filter_sublist _
  · exact List.Nodup.filter _ (by decide)
  · have h : (ALL_FLAGS.map flagSymbol).Nodup := by decide
    exact List.Nodup.sublist (List.Sublist.map _ (List.filter_sublist _)) h
  · intro flag
    rw [List.mem_filter, flag_bit_test]
    simp [mem_ALL_FLAGS]
  · exact flagsOr_filter _
  · intro hlt
    rw [flagsOr_filter, Nat.mod_eq_of_lt hlt]

/-- The mask SEEN|FLAGGED yields `seen`, `flagged`, in that order, and the two
flags give back the mask. -/
theorem C3_witness :
    wrapperOf sampleWorld sampleSmob = some { _msg := sampleMsg, _unrefme := false } ∧
    sampleMsg.flags = MuMsgFlag.SEEN.bit ||| MuMsgFlag.FLAGGED.bit ∧
    msg_flags sampleWorld sampleSmob = .ok (SCM.ofList [.symbol "seen", .symbol "flagged"]) ∧
    ∃ fs : List MuMsgFlag,
      msg_flags sampleWorld sampleSmob = .ok (SCM.ofList (fs.map flagSymbol)) ∧
      fs.Sublist ALL_FLAGS ∧ fs.Nodup ∧ flagsOr fs = sampleMsg.flags :=
  have ⟨fs, h1, h2, h3, _, _, _, h7⟩ := C3_msg_flags_decomposes sampleWorld sampleSmob
    { _msg := sampleMsg, _unrefme := false } rfl
  ⟨rfl, rfl, by decide, fs, h1, h2, h3, h7 (by decide)⟩

/-! ## Release and contacts -/

/-- Claim C7.  Releasing a wrapper calls `mu_msg_unref` exactly once, on the
wrapped message, when the wrapper is tagged owned, and not at all when it is
tagged borrowed; either way the wrapper (its message pointer and its tag) is
as it was. -/
theorem C7_msg_free_releases_once (w : World) (msg_smob : SCM) (msgwrap : MuMsgWrapper)
    (hw : wrapperOf w msg_smob = some msgwrap) :
    (msgwrap._unrefme = true → (msg_free w msg_smob).1.unrefs = w.unrefs ++ [msgwrap._msg]) ∧
    (msgwrap._unrefme = false → (msg_free w msg_smob).1.unrefs = w.unrefs) ∧
    (msg_free w msg_smob).1.heap = w.heap ∧
    wrapperOf (msg_free w msg_smob).1 msg_smob = some msgwrap ∧
    (msg_free w msg_smob).2 = .ok sizeof_MuMsgWrapper := by
  unfold msg_free
  simp only [hw]
  cases hu : msgwrap._unrefme
  · simp [hw]
  · simp only [if_true, true_implies, Bool.true_eq_false, false_implies, true_and, and_true]
    unfold wrapperOf SCM_CDR_wrapper at hw ⊢
    exact hw

/-- The release of the owned sample wrapper frees the sample message once. -/
theorem C7_witness :
    wrapperOf ownedWorld sampleSmob = some { _msg := sampleMsg, _unrefme := true } ∧
    ((true = true → (msg_free ownedWorld sampleSmob).1.unrefs = ownedWorld.unrefs ++ [sampleMsg]) ∧
    (true = false → (msg_free ownedWorld sampleSmob).1.unrefs = ownedWorld.unrefs) ∧
    (msg_free ownedWorld sampleSmob).1.heap = ownedWorld.heap ∧
    wrapperOf (msg_free ownedWorld sampleSmob).1 sampleSmob
      = some { _msg := sampleMsg, _unrefme := true } ∧
    (msg_free ownedWorld sampleSmob).2 = .ok sizeof_MuMsgWrapper) :=
  ⟨rfl, C7_msg_free_releases_once ownedWorld sampleSmob
    { _msg := sampleMsg, _unrefme := true } rfl⟩

/-- Visiting contacts with `contacts_to_list` appends the entries of those of
the wanted role, in the order visited. -/
theorem contacts_foldl (ct : MuMsgContactType) (cs : List MuMsgContact) (xs : List SCM) :
    cs.foldl (fun d contact => contacts_to_list contact d) { lst := SCM.ofList xs, ctype := ct } =
      { lst := SCM.ofList (xs ++ (cs.filter (fun c => c.type = ct)).map contactEntry),
        ctype := ct } := by
  induction cs generalizing xs with
  | nil => simp
  | cons c cs ih =>
    rw [List.foldl_cons]
    by_cases hc : c.type = ct
    · have : contacts_to_list c { lst := SCM.ofList xs, ctype := ct } =
          { lst := SCM.ofList (xs ++ [contactEntry c]), ctype := ct } := by
        unfold contacts_to_list
        simp only [hc, if_true]
        rw [scm_append_x_snoc]
        rcases c with ⟨ty, _ | n, _ | a⟩ <;> rfl
      rw [this, ih]
      simp [List.filter_cons, hc]
    · have : contacts_to_list c { lst := SCM.ofList xs, ctype := ct } =
          { lst := SCM.ofList xs, ctype := ct } := by
        unfold contacts_to_list
        rw [if_neg hc]
      rw [this, ih]
      simp [List.filter_cons, hc]

/-- The helper `contact_list_field` gives the contacts of the role. -/
theorem contact_list_field_eq (w : World) (msg_smob : SCM) (msgwrap : MuMsgWrapper)
    (hw : wrapperOf w msg_smob = some msgwrap) :
    contact_list_field w msg_smob .TO = .ok (SCM.ofList (contactsOf msgwrap._msg .TO)) ∧
    contact_list_field w msg_smob .CC = .ok (SCM.ofList (contactsOf msgwrap._msg .CC)) ∧
    contact_list_field w msg_smob .BCC = .ok (SCM.ofList (contactsOf msgwrap._msg .BCC)) := by
  have h : ∀ ct, (mu_msg_contact_foreach msgwrap._msg contacts_to_list
      { lst := .EOL, ctype := ct }).lst = SCM.ofList (contactsOf msgwrap._msg ct) := by
    intro ct
    unfold mu_msg_contact_foreach contactsOf
    have := contacts_foldl ct msgwrap._msg.contacts []
    simp only [SCM.ofList, List.nil_append] at this
    rw [this]
  refine ⟨?_, ?_, ?_⟩ <;>
  · unfold contact_list_field
    simp only [hw, h]

/-- Claim C8.  For each of the roles To, Cc and Bcc, the contact-list accessor
returns the contacts of the message that have the role, in the order of the
message's contact sequence, none of another role, none dropped or repeated; an
entry is the pair of the name and the address, where a missing one is the
absent marker and a present one is the stored string. -/
theorem C8_contact_lists (w : World) (MSG : SCM) (msgwrap : MuMsgWrapper)
    (hw : wrapperOf w MSG = some msgwrap) :
    msg_to w MSG = .ok (SCM.ofList
      ((msgwrap._msg.contacts.filter (fun c => c.type = .TO)).map contactEntry)) ∧
    msg_cc w MSG = .ok (SCM.ofList
      ((msgwrap._msg.contacts.filter (fun c => c.type = .CC)).map contactEntry)) ∧
    msg_bcc w MSG = .ok (SCM.ofList
      ((msgwrap._msg.contacts.filter (fun c => c.type = .BCC)).map contactEntry)) ∧
    (∀ c : MuMsgContact,
      contactEntry c = .cons (optString c.name) (.cons (optString c.address) .EOL) ∧
      (c.name = none → optString c.name = .UNSPECIFIED) ∧
      (c.address = none → optString c.address = .UNSPECIFIED) ∧
      (∀ s, c.name = some s → optString c.name = .string (c_str s)) ∧
      (∀ s, c.address = some s → optString c.address = .string (c_str s))) := by
  have hm := wrapperOf_is_msg w MSG msgwrap hw
  obtain ⟨h1, h2, h3⟩ := contact_list_field_eq w MSG msgwrap hw
  refine ⟨?_, ?_, ?_, ?_⟩
  · unfold msg_to; simp only [hm, Bool.not_true, Bool.false_eq_true, if_false]; exact h1
  · unfold msg_cc; simp only [hm, Bool.not_true, Bool.false_eq_true, if_false]; exact h2
  · unfold msg_bcc; simp only [hm, Bool.not_true, Bool.false_eq_true, if_false]; exact h3
  · intro c
    refine ⟨rfl, ?_, ?_, ?_, ?_⟩
    · intro h; rw [h]; rfl
    · intro h; rw [h]; rfl
    · intro s h; rw [h]; rfl
    · intro s h; rw [h]; rfl

/-- The To contacts of the sample message: two entries, in message order, with
the absent marker for the missing name and the missing address. -/
theorem C8_witness :
    wrapperOf sampleWorld sampleSmob = some { _msg := sampleMsg, _unrefme := false } ∧
    msg_to sampleWorld sampleSmob = .ok (SCM.ofList
      [SCM.ofList [.UNSPECIFIED, .string [0x61]], SCM.ofList [.string [0x64], .UNSPECIFIED]]) :=
  ⟨rfl, (C8_contact_lists sampleWorld sampleSmob
    { _msg := sampleMsg, _unrefme := false } rfl).1⟩

/-! ## Absent values -/

/-- On a message, the accessor of a string field is `msg_str_field`. -/
theorem stringAccessor_eq (w : World) (MSG : SCM) (msgwrap : MuMsgWrapper)
    (hw : wrapperOf w MSG = some msgwrap) (mfid : MuMsgFieldId)
    (acc : World → SCM → Outcome SCM) (hacc : stringAccessor mfid = some acc) :
    acc w MSG = msg_str_field w MSG mfid := by
  have hm := wrapperOf_is_msg w MSG msgwrap hw
  cases mfid <;> simp [stringAccessor] at hacc <;> subst hacc
  · simp [msg_from, hm]
  · simp [msg_maildir, hm]
  · simp [msg_msgid]
  · simp [msg_path, hm]
  · simp [msg_subject, hm]

/-- The helper `msg_str_field` gives the absent marker for no value and a
string for a value. -/
theorem msg_str_field_cases (w : World) (msg_smob : SCM) (msgwrap : MuMsgWrapper)
    (mfid : MuMsgFieldId) (hw : wrapperOf w msg_smob = some msgwrap) :
    (mu_msg_get_field_string msgwrap._msg mfid = none ∧
      msg_str_field w msg_smob mfid = .ok .UNSPECIFIED) ∨
    (∃ val bytes, mu_msg_get_field_string msgwrap._msg mfid = some val ∧
      msg_str_field w msg_smob mfid = .ok (.string bytes) ∧
      (c_str val = [] → bytes = [])) := by
  unfold msg_str_field
  simp only [hw]
  cases hv : mu_msg_get_field_string msgwrap._msg mfid with
  | none => left; simp
  | some val =>
    right
    refine ⟨val, ?_⟩
    by_cases h : (g_utf8_validate val).1 = true
    · exact ⟨c_str val, rfl, by simp [h, scm_from_utf8_string], fun h => h⟩
    · refine ⟨c_str (g_strndup val (g_utf8_validate val).2), rfl,
        by simp [h, scm_from_utf8_string], ?_⟩
      intro he
      unfold g_strndup
      rw [he, List.take_nil]
      rfl

/-- Claim C9.  For each of the string fields subject, from, path, maildir and
message-id, the accessor returns the absent marker exactly when the library
has no value for the field; when there is a value the result is a string, and
a value that is present but empty yields the empty string. -/
theorem C9_absent_iff_no_value (w : World) (MSG : SCM) (msgwrap : MuMsgWrapper)
    (hw : wrapperOf w MSG = some msgwrap) (mfid : MuMsgFieldId)
    (acc : World → SCM → Outcome SCM) (hacc : stringAccessor mfid = some acc) :
    (acc w MSG = .ok .UNSPECIFIED ↔ mu_msg_get_field_string msgwrap._msg mfid = none) ∧
    (∀ val, mu_msg_get_field_string msgwrap._msg mfid = some val →
      (∃ bytes, acc w MSG = .ok (.string bytes)) ∧
      (c_str val = [] → acc w MSG = .ok (.string []))) := by
  rw [stringAccessor_eq w MSG msgwrap hw mfid acc hacc]
  rcases msg_str_field_cases w MSG msgwrap mfid hw with ⟨hn, hr⟩ | ⟨val, bytes, hv, hr, he⟩
  · refine ⟨⟨fun _ => hn, fun _ => hr⟩, ?_⟩
    intro val hval
    rw [hn] at hval
    exact Option.noConfusion hval
  · refine ⟨⟨?_, ?_⟩, ?_⟩
    · intro h
      rw [hr] at h
      simp at h
    · intro h
      rw [hv] at h
      exact Option.noConfusion h
    · intro val2 hval2
      rw [hv] at hval2
      obtain rfl : val = val2 := Option.some.inj hval2
      exact ⟨⟨bytes, hr⟩, fun hc => by rw [hr, he hc]⟩

/-- A message with no Subject header gives the absent marker for subject, not
the empty string. -/
theorem C9_witness :
    wrapperOf bareWorld (.smob 7 0) = some { _msg := bareMsg, _unrefme := false } ∧
    stringAccessor .SUBJECT = some msg_subject ∧
    mu_msg_get_field_string bareMsg .SUBJECT = none ∧
    msg_subject bareWorld (.smob 7 0) = .ok .UNSPECIFIED ∧
    msg_subject bareWorld (.smob 7 0) ≠ .ok (.string []) :=
  have h := (C9_absent_iff_no_value bareWorld (.smob 7 0)
    { _msg := bareMsg, _unrefme := false } rfl .SUBJECT msg_subject rfl).1.2 rfl
  ⟨rfl, rfl, rfl, h, by rw [h]; decide⟩

/-! ## Ownership -/

/-- The wrapper behind a message smob is the one its data word points to. -/
theorem wrapperOf_smob (w : World) (a : Nat) :
    wrapperOf w (.smob w.MSG_TAG a) = w.heap.get? a := by
  unfold wrapperOf SCM_CDR_wrapper
  simp

/-- Claim C5, at a sample input: right after `mu:msg:make-from-file` has
wrapped a parsed message, the ownership tag of the new wrapper is FALSE: the
facade is not tagged owned. -/
theorem C5_counterexample :
    (msg_make_from_file sampleParser emptyWorld (.string [0x2f, 0x6d])).2 = .ok sampleSmob ∧
    tagOf (msg_make_from_file sampleParser emptyWorld (.string [0x2f, 0x6d])).1 sampleSmob
      ≠ some true := by
  decide

/-- Claim C5, amended.  When the parser gives a message and no error,
`mu:msg:make-from-file` returns a new message smob whose wrapper holds that
message with the ownership tag FALSE (borrowed); the tag is TRUE (owned) once
the mark hook has run on the smob. -/
theorem C5_make_from_file_tag (parser : List Nat → Option MuMsg × Option GError)
    (w : World) (PATH : SCM) (m : MuMsg)
    (hpath : scm_is_string PATH = true)
    (hparse : parser (scm_to_utf8_string PATH) = (some m, none)) :
    (msg_make_from_file parser w PATH).2 = .ok (.smob w.MSG_TAG w.heap.length) ∧
    wrapperOf (msg_make_from_file parser w PATH).1 (.smob w.MSG_TAG w.heap.length)
      = some { _msg := m, _unrefme := false } ∧
    tagOf (msg_make_from_file parser w PATH).1 (.smob w.MSG_TAG w.heap.length) = some false ∧
    tagOf (msg_mark (msg_make_from_file parser w PATH).1 (.smob w.MSG_TAG w.heap.length)).1
      (.smob w.MSG_TAG w.heap.length) = some true := by
  have hr : msg_make_from_file parser w PATH =
      ({ w with heap := w.heap ++ [{ _msg := m, _unrefme := false }] },
        .ok (.smob w.MSG_TAG w.heap.length)) := by
    unfold msg_make_from_file
    simp [hpath, hparse, mu_guile_msg_to_scm]
  rw [hr]
  have hw : wrapperOf { w with heap := w.heap ++ [{ _msg := m, _unrefme := false }] }
      (.smob w.MSG_TAG w.heap.length) = some { _msg := m, _unrefme := false } := by
    have := wrapperOf_smob { w with heap := w.heap ++ [{ _msg := m, _unrefme := false }] }
      w.heap.length
    simp only at this
    rw [this]
    simp
  refine ⟨rfl, hw, ?_, ?_⟩
  · unfold tagOf; rw [hw]; rfl
  · unfold tagOf msg_mark
    unfold wrapperOf at hw ⊢
    cases hc : SCM_CDR_wrapper { w with heap := w.heap ++ [{ _msg := m, _unrefme := false }] }
        (.smob w.MSG_TAG w.heap.length) with
    | none => rw [hc] at hw; simp at hw
    | some pw =>
      obtain ⟨p, msgwrap⟩ := pw
      simp only
      unfold SCM_CDR_wrapper at hc ⊢
      simp at hc ⊢
      obtain ⟨hp, hq⟩ := hc
      subst hp
      simp

/-- The sample parse gives a wrapper tagged FALSE. -/
theorem C5_witness :
    scm_is_string (.string [0x2f, 0x6d]) = true ∧
    sampleParser (scm_to_utf8_string (.string [0x2f, 0x6d])) = (some sampleMsg, none) ∧
    tagOf (msg_make_from_file sampleParser emptyWorld (.string [0x2f, 0x6d])).1
      (.smob emptyWorld.MSG_TAG emptyWorld.heap.length) = some false :=
  ⟨rfl, rfl, (C5_make_from_file_tag sampleParser emptyWorld (.string [0x2f, 0x6d]) sampleMsg
    rfl rfl).2.2.1⟩

/-- The tag depends on the wrappers and the smob tag only. -/
theorem tagOf_congr (w w' : World) (hh : w'.heap = w.heap) (ht : w'.MSG_TAG = w.MSG_TAG)
    (v : SCM) : tagOf w' v = tagOf w v := by
  unfold tagOf wrapperOf SCM_CDR_wrapper
  rw [hh, ht]

/-- The print hook writes to the port and nothing else. -/
theorem msg_print_frame (w : World) (v port : SCM) :
    (msg_print w v port).1.heap = w.heap ∧ (msg_print w v port).1.MSG_TAG = w.MSG_TAG := by
  unfold msg_print
  simp only
  split_ifs
  · exact ⟨rfl, rfl⟩
  · split
    · exact ⟨rfl, rfl⟩
    · split <;> exact ⟨rfl, rfl⟩

/-- The mark hook sets the tag of the wrapper and keeps its message. -/
theorem msg_mark_sets_tag (w : World) (v : SCM) (msgwrap : MuMsgWrapper)
    (hw : wrapperOf w v = some msgwrap) :
    wrapperOf (msg_mark w v).1 v = some { msgwrap with _unrefme := true } := by
  unfold wrapperOf at hw ⊢
  unfold msg_mark
  cases hc : SCM_CDR_wrapper w v with
  | none => rw [hc] at hw; simp at hw
  | some pw =>
    obtain ⟨p, mw⟩ := pw
    rw [hc] at hw
    simp at hw
    subst hw
    simp only
    unfold SCM_CDR_wrapper at hc ⊢
    cases v with
    | smob tag data =>
      simp at hc ⊢
      obtain ⟨h1, h2, h3⟩ := hc
      subst h3
      have hlt : data < w.heap.length := by
        by_contra hlt
        rw [List.getElem?_eq_none (by omega)] at h2
        simp at h2
      simp [h1, List.getElem?_set, hlt]
    | _ => simp at hc

/-- Claim C6, at a sample input: the wrapper of the sample message is tagged
FALSE when it is wrapped, and TRUE after the mark hook has run on it. -/
theorem C6_counterexample :
    tagOf (Op.run .mark sampleWorld sampleSmob).1 sampleSmob ≠ tagOf sampleWorld sampleSmob := by
  decide

/-- Claim C6, amended.  Every accessor and the print hook leave every wrapper
as it is, so the ownership tag after the operation is the tag before it; the
mark hook sets the tag of the wrapper it runs on to TRUE, whatever it was, and
keeps the wrapped message. -/
theorem C6_tag_kept_except_mark (op : Op) (w : World) (v : SCM) :
    (op ≠ .mark → (op.run w v).1.heap = w.heap ∧ ∀ v', tagOf (op.run w v).1 v' = tagOf w v') ∧
    (op = .mark → ∀ msgwrap, wrapperOf w v = some msgwrap →
      wrapperOf (op.run w v).1 v = some { _msg := msgwrap._msg, _unrefme := true } ∧
      tagOf (op.run w v).1 v = some true) := by
  constructor
  · intro hop
    cases op
    case mark => exact absurd rfl hop
    case print port =>
      have := msg_print_frame w v port
      exact ⟨this.1, fun v' => tagOf_congr _ _ this.1 this.2 v'⟩
    all_goals exact ⟨rfl, fun _ => rfl⟩
  · rintro rfl msgwrap hw
    have := msg_mark_sets_tag w v msgwrap hw
    refine ⟨this, ?_⟩
    unfold tagOf
    show Option.map _ (wrapperOf (msg_mark w v).1 v) = some true
    rw [this]; rfl

/-- On the sample wrapper `mu:msg:subject` keeps the tag and the mark hook
sets it. -/
theorem C6_witness :
    Op.subject ≠ Op.mark ∧ Op.mark = Op.mark ∧
    wrapperOf sampleWorld sampleSmob = some { _msg := sampleMsg, _unrefme := false } ∧
    tagOf (Op.run .subject sampleWorld sampleSmob).1 sampleSmob = tagOf sampleWorld sampleSmob ∧
    tagOf (Op.run .mark sampleWorld sampleSmob).1 sampleSmob = some true :=
  ⟨by simp, rfl, rfl,
    ((C6_tag_kept_except_mark .subject sampleWorld sampleSmob).1 (by simp)).2 sampleSmob,
    ((C6_tag_kept_except_mark .mark sampleWorld sampleSmob).2 rfl
      { _msg := sampleMsg, _unrefme := false } rfl).2⟩

/-- An accessor with the tag check raises the type error on every value that
is not a message, and `mu:msg:message-id`, which has no check, reads through
its data word. -/
theorem accessors_on_untagged (w : World) (v : SCM) (h : mu_guile_scm_is_msg w v = false) :
    (∀ op : Op, op.isAccessor = true → op ≠ .message_id →
      ∃ subr, (op.run w v).2 = .wrong_type_arg subr 1 v) ∧
    msg_msgid w v = .bad_pointer v := by
  constructor
  · intro op hacc hne
    cases op
    case message_id => exact absurd rfl hne
    case mark => simp [Op.isAccessor] at hacc
    case print => simp [Op.isAccessor] at hacc
    all_goals
      simp [Op.run, msg_date, msg_size, msg_prio, msg_flags, msg_subject, msg_from, msg_to,
        msg_cc, msg_bcc, msg_path, msg_maildir, msg_body, msg_header, msg_tags, msg_refs, h]
  · unfold msg_msgid msg_str_field wrapperOf SCM_CDR_wrapper
    unfold mu_guile_scm_is_msg at h
    cases v <;> simp at h ⊢
    simp [h]

/-- Claim C4, at the failing input: on the integer 42, which is not a message,
`mu:msg:message-id` raises no type error and reads the value as a wrapper,
where `mu:msg:subject` raises the type error. -/
theorem C4_msgid_unchecked :
    mu_guile_scm_is_msg sampleWorld (.integer 42) = false ∧
    msg_msgid sampleWorld (.integer 42) = .bad_pointer (.integer 42) ∧
    msg_subject sampleWorld (.integer 42) = .wrong_type_arg "mu:msg:subject" 1 (.integer 42) := by
  decide

/-- Claim C10, at the failing input: the body of the sample message is not
valid UTF-8 and `mu:msg:body` hands all of it to the string conversion, where
`mu:msg:subject`, on the same bytes, returns the valid prefix. -/
theorem C10_body_unsanitized :
    sampleMsg.body_text = some [0x61, 0xff, 0x62] ∧
    g_utf8_validate [0x61, 0xff, 0x62] = (false, 1) ∧
    msg_body sampleWorld sampleSmob .UNDEFINED = .ok (.string [0x61, 0xff, 0x62]) ∧
    msg_subject sampleWorld sampleSmob = .ok (.string [0x61]) := by
  decide

end MuGuile
